import Mathlib

/-!
# Verification of the hashira polynomial round-trip program

A shallow embedding of `src/hashira.cpp`: a single-shot pipeline that
builds a JSON document holding the coefficients `a = 2`, `b = -7` of a
quadratic, a null placeholder for `c`, and the two root texts `"2"` and
`"5"` base64-encoded; writes it to `polynomial.json`; reads it back;
decodes the roots; computes `c = a * (alpha * beta)`; and rewrites the
file with `c` filled in.

Modelling conventions:

* C++ `std::string` bytes are `List Nat` (each `< 256`); text that is
  known to be character data (file contents, base64 output) is
  `List Char`.
* C++ `double` is modelled as `ℚ`.  Every numeric value the claims touch
  (`2`, `5`, `-7`, `3.5`, `7`, `10`, `20`, `30`) is exactly representable
  in binary64 and the operations on them (`stod`, `*`, `+`, unary `-`,
  `/` by 2) are exact there, so the rational model agrees with IEEE-754
  evaluation on everything stated below.
* The two third-party headers (`nlohmann/json.hpp`,
  `tobiaslocker/base64.hpp`) are not part of the repository; their
  behaviour is modelled from the spec where marked `Modelled from the
  spec:`.
* The filesystem is one cell (the fixed path `polynomial.json`) plus a
  writability flag.  `std::ofstream` in the source is used with the
  default exception mask and its stream state is never checked, so per
  C++ iostream semantics a failed open/write sets `failbit` silently and
  raises nothing; this is embedded as "the write leaves the file
  unchanged and execution continues".  `nlohmann::json::parse` on a
  stream that failed to open, or on malformed text, throws, which is an
  uncaught exception and terminates the process with a non-zero status;
  this is embedded as a fatal outcome.
-/

namespace Hashira

/-! ## Base64 codec

Modelled from the spec: the program includes the header-only
`tobiaslocker/base64` codec, which is not part of the repository.  The
spec (section 4.2) requires a standard RFC-4648 64-character alphabet
with `=` padding such that `decode (encode s) = s` for every byte
string `s`, and a format error on malformed input. -/

def b64alpha : List Char :=
  "ABCDEFGHIJKLMNOPQRSTUVWXYZabcdefghijklmnopqrstuvwxyz0123456789+/".toList

/-- Character of a sextet value (callers keep the index below 64). -/
def b64char (n : Nat) : Char := b64alpha.getD n '?'

/-- Position of a character in the base64 alphabet. -/
def findIdx (c : Char) : List Char → Option Nat
  | [] => none
  | x :: t => if x = c then some 0 else (findIdx c t).map (· + 1)

/-- Sextet value of an alphabet character; `none` for a non-alphabet
character (the format-error case of the spec). -/
def sextet (c : Char) : Option Nat := findIdx c b64alpha

/-- Modelled from the spec: RFC-4648 base64 encoding of a byte string,
with `=` padding. -/
def to_base64 : List Nat → List Char
  | [] => []
  | a :: b :: c :: rest =>
      b64char (a / 4) :: b64char (a % 4 * 16 + b / 16) ::
      b64char (b % 16 * 4 + c / 64) :: b64char (c % 64) :: to_base64 rest
  | [a] => [b64char (a / 4), b64char (a % 4 * 16), '=', '=']
  | [a, b] => [b64char (a / 4), b64char (a % 4 * 16 + b / 16), b64char (b % 16 * 4), '=']

/-- First byte of a decoded quartet. -/
def byteA (s1 s2 : Nat) : Nat := s1 * 4 + s2 / 16

/-- Second byte of a decoded quartet. -/
def byteB (s2 s3 : Nat) : Nat := s2 % 16 * 16 + s3 / 4

/-- Third byte of a decoded quartet. -/
def byteC (s3 s4 : Nat) : Nat := s3 % 4 * 64 + s4

/-- Modelled from the spec: RFC-4648 base64 decoding; `none` signals the
format error of spec section 4.2 (bad length, stray character, or
padding before the final quartet). -/
def from_base64 : List Char → Option (List Nat)
  | [] => some []
  | c1 :: c2 :: c3 :: c4 :: rest =>
    match sextet c1, sextet c2 with
    | some s1, some s2 =>
      if c3 = '=' then
        if c4 = '=' ∧ rest = [] then some [byteA s1 s2] else none
      else
        match sextet c3 with
        | some s3 =>
          if c4 = '=' then
            if rest = [] then some [byteA s1 s2, byteB s2 s3] else none
          else
            match sextet c4 with
            | some s4 =>
                (from_base64 rest).map
                  (fun bs => byteA s1 s2 :: byteB s2 s3 :: byteC s3 s4 :: bs)
            | none => none
        | none => none
    | _, _ => none
  | _ => none

theorem sextet_b64char : ∀ s : Fin 64, sextet (b64char s.val) = some s.val := by decide

theorem b64char_ne_pad : ∀ s : Fin 64, b64char s.val ≠ '=' := by decide

/-- Induction principle following the three-byte chunking of `to_base64`. -/
theorem threeInd (P : List Nat → Prop) (h0 : P []) (h1 : ∀ a, P [a])
    (h2 : ∀ a b, P [a, b]) (h3 : ∀ a b c t, P t → P (a :: b :: c :: t)) :
    ∀ l, P l
  | [] => h0
  | [a] => h1 a
  | [a, b] => h2 a b
  | a :: b :: c :: t => h3 a b c t (threeInd P h0 h1 h2 h3 t)

theorem b64_roundtrip (bs : List Nat) (h : ∀ b ∈ bs, b < 256) :
    from_base64 (to_base64 bs) = some bs := by
  induction bs using threeInd with
  | h0 => rfl
  | h1 a =>
    have ha : a < 256 := h a (by simp)
    have e1 := sextet_b64char ⟨a / 4, by omega⟩
    have e2 := sextet_b64char ⟨a % 4 * 16, by omega⟩
    simp only [to_base64, from_base64, e1, e2]
    simp [byteA]
    omega
  | h2 a b =>
    have ha : a < 256 := h a (by simp)
    have hb : b < 256 := h b (by simp)
    have e1 := sextet_b64char ⟨a / 4, by omega⟩
    have e2 := sextet_b64char ⟨a % 4 * 16 + b / 16, by omega⟩
    have e3 := sextet_b64char ⟨b % 16 * 4, by omega⟩
    have n3 := b64char_ne_pad ⟨b % 16 * 4, by omega⟩
    simp only [to_base64, from_base64, e1, e2, e3, if_neg n3]
    simp [byteA, byteB]
    constructor <;> omega
  | h3 a b c t ih =>
    have ha : a < 256 := h a (by simp)
    have hb : b < 256 := h b (by simp)
    have hc : c < 256 := h c (by simp)
    have ht : ∀ x ∈ t, x < 256 := fun x hx => h x (by simp [hx])
    have e1 := sextet_b64char ⟨a / 4, by omega⟩
    have e2 := sextet_b64char ⟨a % 4 * 16 + b / 16, by omega⟩
    have e3 := sextet_b64char ⟨b % 16 * 4 + c / 64, by omega⟩
    have e4 := sextet_b64char ⟨c % 64, by omega⟩
    have n3 := b64char_ne_pad ⟨b % 16 * 4 + c / 64, by omega⟩
    have n4 := b64char_ne_pad ⟨c % 64, by omega⟩
    simp only [to_base64, from_base64, e1, e2, e3, e4, if_neg n3, if_neg n4,
      ih ht, Option.map_some]
    simp [byteA, byteB, byteC]
    refine ⟨by omega, by omega, by omega⟩

/-! ## Decimal digits -/

/-- Is the character an ASCII decimal digit? -/
def isDig (c : Char) : Bool := 48 ≤ c.toNat && c.toNat ≤ 57

/-- The digit character for a value below ten. -/
def digitChar (d : Nat) : Char :=
  match d with
  | 0 => '0' | 1 => '1' | 2 => '2' | 3 => '3' | 4 => '4'
  | 5 => '5' | 6 => '6' | 7 => '7' | 8 => '8' | 9 => '9'
  | _ => '?'

/-- Numeric value of a digit run. -/
def val (ds : List Char) : Nat :=
  ds.foldl (fun acc c => acc * 10 + (c.toNat - 48)) 0

/-- Decimal digit characters with explicit fuel (the fuel never runs out
when it exceeds the number). -/
def natCharsAux : Nat → Nat → List Char
  | 0, _ => []
  | fuel + 1, n =>
    if n < 10 then [digitChar n]
    else natCharsAux fuel (n / 10) ++ [digitChar (n % 10)]

/-- Decimal digit characters of a natural number, most significant first. -/
def natChars (n : Nat) : List Char := natCharsAux (n + 1) n

theorem natCharsAux_eq : ∀ n fuel, n < fuel → natCharsAux fuel n = natChars n := by
  intro n
  induction n using Nat.strong_induction_on with
  | _ n ih =>
    intro fuel hf
    match fuel with
    | f + 1 =>
      show natCharsAux (f + 1) n = natCharsAux (n + 1) n
      simp only [natCharsAux]
      split
      · rfl
      · rw [ih (n / 10) (Nat.div_lt_self (by omega) (by omega)) f (by omega),
          ih (n / 10) (Nat.div_lt_self (by omega) (by omega)) n (by omega)]

/-- The recursive unfolding of `natChars`. -/
theorem natChars_eq (n : Nat) : natChars n =
    if n < 10 then [digitChar n] else natChars (n / 10) ++ [digitChar (n % 10)] := by
  show natCharsAux (n + 1) n = _
  simp only [natCharsAux]
  split
  · rfl
  · rw [natCharsAux_eq (n / 10) n (Nat.div_lt_self (by omega) (by omega))]

/-- Decimal rendering of an integer, as `nlohmann::json` prints `int`
fields. -/
def intChars (n : Int) : List Char :=
  if n < 0 then '-' :: natChars n.natAbs else natChars n.natAbs

/-- Longest digit run at the front of the text, and the rest. -/
def splitDigs : List Char → List Char × List Char
  | [] => ([], [])
  | c :: t => if isDig c then ((splitDigs t).1.cons c, (splitDigs t).2) else ([], c :: t)

/-- The text does not begin with a digit (so a digit run ends there). -/
def noDigHead : List Char → Prop
  | [] => True
  | c :: _ => isDig c = false

/-! ## JSON document model

Modelled from the spec: the program serializes with
`nlohmann::json` (not part of the repository) via
`out << std::setw(2) << doc << std::endl` and reads back with
`json::parse`.  The spec (sections 4.3, 4.4, 6) fixes the observable
format: 2-space-indented JSON with the fixed schema
`polynomial{a,b,c,form} / roots_base64{alpha,beta}`, keys in the
(alphabetical) order `nlohmann` emits, and `parse` recovering the same
structured values.  The field extraction in the source
(`loaded["polynomial"]["a"].get<int>()` and friends) throws on a
missing or wrongly-typed field exactly like `parse` throws on bad
text, so schema mismatches are folded into parse failure.  A `double`
field is printed as an optional sign, a digit run, `.`, and a nonempty
fractional digit run (the shortest-round-trip form for every value
reached here); scientific notation for huge magnitudes and `\uXXXX`
escapes for control characters are elided, which none of the claims
exercise. -/

/-- A serialized floating-point value: the signed mantissa digits and the
count of fractional digits minus one, so the value is
`mant / 10 ^ (fr + 1)` and at least one digit follows the point. -/
structure Dec where
  mant : Int
  fr : Nat
deriving DecidableEq

/-- Rational value of a serialized floating-point field. -/
def decVal (d : Dec) : ℚ := (d.mant : ℚ) / 10 ^ (d.fr + 1)

/-- Digit block of a `Dec`: the mantissa digits, zero-padded on the left
so that at least one digit sits before the point. -/
def decDigs (d : Dec) : List Char :=
  List.replicate (d.fr + 2 - (natChars d.mant.natAbs).length) '0' ++ natChars d.mant.natAbs

/-- Text of a floating-point field: sign, integer digits, point,
`fr + 1` fractional digits. -/
def decChars (d : Dec) : List Char :=
  (if d.mant < 0 then ['-'] else []) ++
  (decDigs d).take ((decDigs d).length - (d.fr + 1)) ++
  '.' :: (decDigs d).drop ((decDigs d).length - (d.fr + 1))

/-- The text of the `c` field: `null` before the update, a number after. -/
def cChars : Option Dec → List Char
  | none => ['n', 'u', 'l', 'l']
  | some d => decChars d

/-- String-body escaping: `"` and `\` get a backslash; every other
character is emitted raw. -/
def escape : List Char → List Char
  | [] => []
  | ch :: t => if ch = '"' ∨ ch = '\\' then '\\' :: ch :: escape t else ch :: escape t

/-- The record the document stores: `polynomial{a,b,c,form}` and
`roots_base64{alpha,beta}`, mirroring the initializer at
`src/hashira.cpp:34-45`. -/
structure Record where
  a : Int
  b : Int
  c : Option Dec
  form : List Char
  alpha : List Char
  beta : List Char
deriving DecidableEq

/-- Literal text before the `a` value. -/
def seg1 : List Char := "\x7b\n  \"polynomial\": \x7b\n    \"a\": ".toList

/-- Literal text between the `a` and `b` values. -/
def seg2 : List Char := ",\n    \"b\": ".toList

/-- Literal text between the `b` and `c` values. -/
def seg3 : List Char := ",\n    \"c\": ".toList

/-- Literal text between the `c` value and the `form` string body. -/
def seg4 : List Char := ",\n    \"form\": \"".toList

/-- Literal text between the `form` string and the `alpha` string body. -/
def seg5 : List Char := "\n  \x7d,\n  \"roots_base64\": \x7b\n    \"alpha\": \"".toList

/-- Literal text between the `alpha` and `beta` string bodies. -/
def seg6 : List Char := ",\n    \"beta\": \"".toList

/-- Literal text after the `beta` string: the closing braces and the
newline `std::endl` appends. -/
def seg7 : List Char := "\n  \x7d\n\x7d\n".toList

/-- Modelled from the spec: the exact text
`out << std::setw(2) << doc << std::endl` produces for a record —
2-space-indented JSON, keys in `nlohmann`'s alphabetical order, plus a
trailing newline. -/
def dumpRecord (r : Record) : List Char :=
  seg1 ++ intChars r.a ++ seg2 ++ intChars r.b ++ seg3 ++ cChars r.c ++
  seg4 ++ escape r.form ++ '"' ::
  (seg5 ++ escape r.alpha ++ '"' :: (seg6 ++ escape r.beta ++ '"' :: seg7))

/-- Strip an expected literal from the front of the text. -/
def dropLit (p t : List Char) : Option (List Char) :=
  match p, t with
  | [], rest => some rest
  | _ :: _, [] => none
  | a :: p2, b :: t2 => if a = b then dropLit p2 t2 else none

/-- Parse a signed integer field. -/
def parseInt (t : List Char) : Option (Int × List Char) :=
  if t.head? = some '-' then
    let p := splitDigs t.tail
    if p.1 = [] then none else some (-(val p.1 : Int), p.2)
  else
    let p := splitDigs t
    if p.1 = [] then none else some ((val p.1 : Int), p.2)

/-- Parse an unsigned floating-point body: digits, point, digits. -/
def parseDecNN (t : List Char) : Option ((Nat × Nat) × List Char) :=
  let p := splitDigs t
  if p.1 = [] then none
  else if p.2.head? = some '.' then
    let q := splitDigs p.2.tail
    if q.1 = [] then none
    else some ((val (p.1 ++ q.1), q.1.length - 1), q.2)
  else none

/-- Parse a signed floating-point field. -/
def parseDec (t : List Char) : Option (Dec × List Char) :=
  if t.head? = some '-' then
    (parseDecNN t.tail).map (fun p => (⟨-(p.1.1 : Int), p.1.2⟩, p.2))
  else
    (parseDecNN t).map (fun p => (⟨(p.1.1 : Int), p.1.2⟩, p.2))

/-- Parse the `c` field: `null` or a floating-point number. -/
def parseCField (t : List Char) : Option (Option Dec × List Char) :=
  if t.head? = some 'n' then
    (dropLit ['n', 'u', 'l', 'l'] t).map (fun rest => (none, rest))
  else
    (parseDec t).map (fun p => (some p.1, p.2))

/-- Parse a string body up to and including its closing quote, undoing
`escape`. -/
def parseStrBody (t0 : List Char) : Option (List Char × List Char) :=
  match t0 with
  | [] => none
  | ch :: t =>
    if ch = '"' then some ([], t)
    else if ch = '\\' then
      t.head?.bind (fun e => (parseStrBody t.tail).map (fun p => (e :: p.1, p.2)))
    else (parseStrBody t).map (fun p => (ch :: p.1, p.2))
termination_by t0.length
decreasing_by
all_goals simp [List.length_tail]
all_goals omega

/-- Modelled from the spec: `json::parse` followed by the source's field
extractions, recovering a `Record` from document text; `none` is the
thrown-and-uncaught parse or extraction failure. -/
def parseRecord (t0 : List Char) : Option Record :=
  (dropLit seg1 t0).bind fun t1 =>
  (parseInt t1).bind fun p1 =>
  (dropLit seg2 p1.2).bind fun t2 =>
  (parseInt t2).bind fun p2 =>
  (dropLit seg3 p2.2).bind fun t3 =>
  (parseCField t3).bind fun p3 =>
  (dropLit seg4 p3.2).bind fun t4 =>
  (parseStrBody t4).bind fun p4 =>
  (dropLit seg5 p4.2).bind fun t5 =>
  (parseStrBody t5).bind fun p5 =>
  (dropLit seg6 p5.2).bind fun t6 =>
  (parseStrBody t6).bind fun p6 =>
  (dropLit seg7 p6.2).bind fun t7 =>
  if t7 = [] then some ⟨p1.1, p2.1, p3.1, p4.1, p5.1, p6.1⟩ else none

/-! ## Round-trip lemmas for the document format -/

theorem digitChar_isDig (d : Nat) (h : d < 10) : isDig (digitChar d) = true := by
  have : ∀ x : Fin 10, isDig (digitChar x.val) = true := by decide
  exact this ⟨d, h⟩

theorem digitChar_val (d : Nat) (h : d < 10) : (digitChar d).toNat - 48 = d := by
  have : ∀ x : Fin 10, (digitChar x.val).toNat - 48 = x.val := by decide
  exact this ⟨d, h⟩

theorem natChars_digits (n : Nat) : ∀ c ∈ natChars n, isDig c = true := by
  induction n using Nat.strong_induction_on with
  | _ n ih =>
    rw [natChars_eq]
    split
    · intro c hc
      rw [List.mem_singleton] at hc
      subst hc
      exact digitChar_isDig n (by omega)
    · intro c hc
      rw [List.mem_append] at hc
      rcases hc with hc | hc
      · exact ih (n / 10) (Nat.div_lt_self (by omega) (by omega)) c hc
      · rw [List.mem_singleton] at hc
        subst hc
        exact digitChar_isDig _ (Nat.mod_lt _ (by omega))

theorem natChars_ne_nil (n : Nat) : natChars n ≠ [] := by
  rw [natChars_eq]
  split <;> simp

theorem foldl_val (l : List Char) (acc : Nat) :
    l.foldl (fun a c => a * 10 + (c.toNat - 48)) acc = acc * 10 ^ l.length + val l := by
  induction l generalizing acc with
  | nil => simp [val]
  | cons c t ih =>
    show List.foldl _ (acc * 10 + (c.toNat - 48)) t = _
    rw [ih]
    have h2 : val (c :: t) = (c.toNat - 48) * 10 ^ t.length + val t := by
      show List.foldl _ (0 * 10 + (c.toNat - 48)) t = _
      rw [ih]
      ring
    rw [h2, List.length_cons]
    ring

theorem val_append (l1 l2 : List Char) :
    val (l1 ++ l2) = val l1 * 10 ^ l2.length + val l2 := by
  show List.foldl _ 0 (l1 ++ l2) = _
  rw [List.foldl_append]
  exact foldl_val l2 (val l1)

theorem val_padded (k : Nat) (l : List Char) :
    val (List.replicate k '0' ++ l) = val l := by
  rw [val_append]
  have h0 : val (List.replicate k '0') = 0 := by
    induction k with
    | zero => rfl
    | succ k ih =>
      rw [List.replicate_succ]
      show List.foldl _ (0 * 10 + ('0'.toNat - 48)) _ = 0
      have : (0 * 10 + ('0'.toNat - 48)) = 0 := by decide
      rw [this]
      exact ih
  rw [h0]
  ring

theorem val_natChars (n : Nat) : val (natChars n) = n := by
  induction n using Nat.strong_induction_on with
  | _ n ih =>
    rw [natChars_eq]
    split
    · have h1 : val [digitChar n] = (digitChar n).toNat - 48 := by
        show (0 * 10 + ((digitChar n).toNat - 48)) = _
        omega
      rw [h1, digitChar_val n (by omega)]
    · rw [val_append, ih (n / 10) (Nat.div_lt_self (by omega) (by omega))]
      have h1 : val [digitChar (n % 10)] = n % 10 := by
        show (0 * 10 + ((digitChar (n % 10)).toNat - 48)) = _
        rw [digitChar_val _ (Nat.mod_lt _ (by omega))]
        omega
      rw [h1]
      simp
      omega

theorem splitDigs_append (ds l : List Char) (hds : ∀ c ∈ ds, isDig c = true)
    (hl : noDigHead l) : splitDigs (ds ++ l) = (ds, l) := by
  induction ds with
  | nil =>
    rw [List.nil_append]
    cases l with
    | nil => rfl
    | cons c t =>
      have hc : isDig c = false := hl
      simp [splitDigs, hc]
  | cons c ds ih =>
    have hc : isDig c = true := hds c (by simp)
    rw [List.cons_append]
    simp only [splitDigs, hc, if_pos]
    rw [ih (fun x hx => hds x (by simp [hx]))]

theorem isDig_ne_dash (c : Char) (h : isDig c = true) : c ≠ '-' := by
  rintro rfl
  exact absurd h (by decide)

theorem isDig_ne_n (c : Char) (h : isDig c = true) : c ≠ 'n' := by
  rintro rfl
  exact absurd h (by decide)

theorem dropLit_append (p l : List Char) : dropLit p (p ++ l) = some l := by
  induction p with
  | nil => rfl
  | cons a p ih => simp [dropLit, ih]

theorem dropLit_refl (p : List Char) : dropLit p p = some [] := by
  have h := dropLit_append p []
  rwa [List.append_nil] at h

theorem parseInt_round (n : Int) (l : List Char) (hl : noDigHead l) :
    parseInt (intChars n ++ l) = some (n, l) := by
  have hdigs := natChars_digits n.natAbs
  have hsplit : splitDigs (natChars n.natAbs ++ l) = (natChars n.natAbs, l) :=
    splitDigs_append _ _ hdigs hl
  have hne := natChars_ne_nil n.natAbs
  by_cases hn : n < 0
  · simp only [intChars, if_pos hn, List.cons_append]
    simp only [parseInt, List.head?_cons, List.tail_cons, hsplit, if_pos, if_neg hne,
      Option.some.injEq, reduceIte]
    rw [val_natChars]
    simp only [Prod.mk.injEq]
    exact ⟨by omega, trivial⟩
  · simp only [intChars, if_neg hn]
    obtain ⟨c, t, heq⟩ : ∃ c t, natChars n.natAbs = c :: t := by
      cases h : natChars n.natAbs with
      | nil => exact absurd h hne
      | cons c t => exact ⟨c, t, rfl⟩
    have hc : isDig c = true := hdigs c (by rw [heq]; simp)
    have hhead : (natChars n.natAbs ++ l).head? ≠ some '-' := by
      rw [heq]
      simp only [List.cons_append, List.head?_cons, ne_eq, Option.some.injEq]
      exact isDig_ne_dash c hc
    simp only [parseInt, if_neg hhead, hsplit, if_neg hne, Option.some.injEq]
    rw [val_natChars]
    simp only [Prod.mk.injEq]
    exact ⟨by omega, trivial⟩

theorem decDigs_length (d : Dec) : d.fr + 2 ≤ (decDigs d).length := by
  rw [decDigs, List.length_append, List.length_replicate]
  omega

theorem decDigs_digits (d : Dec) : ∀ c ∈ decDigs d, isDig c = true := by
  intro c hc
  rw [decDigs, List.mem_append] at hc
  rcases hc with hc | hc
  · rw [List.eq_of_mem_replicate hc]
    decide
  · exact natChars_digits _ c hc

theorem val_decDigs (d : Dec) : val (decDigs d) = d.mant.natAbs := by
  rw [decDigs, val_padded, val_natChars]

theorem parseDecNN_core (d : Dec) (l : List Char) (hl : noDigHead l) :
    parseDecNN ((decDigs d).take ((decDigs d).length - (d.fr + 1)) ++
      ('.' :: ((decDigs d).drop ((decDigs d).length - (d.fr + 1)) ++ l))) =
      some ((d.mant.natAbs, d.fr), l) := by
  have hlen := decDigs_length d
  have htklen : ((decDigs d).take ((decDigs d).length - (d.fr + 1))).length =
      (decDigs d).length - (d.fr + 1) := by
    rw [List.length_take]
    omega
  have hdplen : ((decDigs d).drop ((decDigs d).length - (d.fr + 1))).length = d.fr + 1 := by
    rw [List.length_drop]
    omega
  have htkdig : ∀ c ∈ (decDigs d).take ((decDigs d).length - (d.fr + 1)), isDig c = true :=
    fun c hc => decDigs_digits d c (List.take_subset _ _ hc)
  have hdpdig : ∀ c ∈ (decDigs d).drop ((decDigs d).length - (d.fr + 1)), isDig c = true :=
    fun c hc => decDigs_digits d c (List.drop_subset _ _ hc)
  have hs1 : splitDigs ((decDigs d).take ((decDigs d).length - (d.fr + 1)) ++
      ('.' :: ((decDigs d).drop ((decDigs d).length - (d.fr + 1)) ++ l))) =
      ((decDigs d).take ((decDigs d).length - (d.fr + 1)),
        '.' :: ((decDigs d).drop ((decDigs d).length - (d.fr + 1)) ++ l)) :=
    splitDigs_append _ _ htkdig (by show isDig '.' = false; decide)
  have hs2 : splitDigs ((decDigs d).drop ((decDigs d).length - (d.fr + 1)) ++ l) =
      ((decDigs d).drop ((decDigs d).length - (d.fr + 1)), l) :=
    splitDigs_append _ _ hdpdig hl
  have htkne : (decDigs d).take ((decDigs d).length - (d.fr + 1)) ≠ [] := by
    rw [← List.length_pos, htklen]
    omega
  have hdpne : (decDigs d).drop ((decDigs d).length - (d.fr + 1)) ≠ [] := by
    rw [← List.length_pos, hdplen]
    omega
  simp only [parseDecNN, hs1, if_neg htkne, List.head?_cons, List.tail_cons, hs2,
    if_neg hdpne, if_pos, Option.some.injEq, reduceIte]
  rw [List.take_append_drop, val_decDigs, hdplen]
  simp

theorem decChars_shape (d : Dec) : ∃ c rest, decChars d = c :: rest ∧
    ((d.mant < 0 ∧ c = '-') ∨ (0 ≤ d.mant ∧ isDig c = true)) := by
  have hlen := decDigs_length d
  have htklen : ((decDigs d).take ((decDigs d).length - (d.fr + 1))).length =
      (decDigs d).length - (d.fr + 1) := by
    rw [List.length_take]
    omega
  obtain ⟨c, t, heq⟩ : ∃ c t,
      (decDigs d).take ((decDigs d).length - (d.fr + 1)) = c :: t := by
    cases h : (decDigs d).take ((decDigs d).length - (d.fr + 1)) with
    | nil => rw [h] at htklen; simp at htklen; omega
    | cons c t => exact ⟨c, t, rfl⟩
  have hc : isDig c = true :=
    decDigs_digits d c (List.take_subset _ _ (by rw [heq]; simp))
  by_cases hn : d.mant < 0
  · refine ⟨'-', (decDigs d).take ((decDigs d).length - (d.fr + 1)) ++
      '.' :: (decDigs d).drop ((decDigs d).length - (d.fr + 1)), ?_, Or.inl ⟨hn, rfl⟩⟩
    rw [decChars, if_pos hn]
    rfl
  · refine ⟨c, t ++ '.' :: (decDigs d).drop ((decDigs d).length - (d.fr + 1)), ?_,
      Or.inr ⟨by omega, hc⟩⟩
    rw [decChars, if_neg hn, heq]
    rfl

theorem parseDec_round (d : Dec) (l : List Char) (hl : noDigHead l) :
    parseDec (decChars d ++ l) = some (d, l) := by
  obtain ⟨m, f⟩ := d
  have hcore : parseDecNN ((decDigs ⟨m, f⟩).take ((decDigs ⟨m, f⟩).length - (f + 1)) ++
      ('.' :: ((decDigs ⟨m, f⟩).drop ((decDigs ⟨m, f⟩).length - (f + 1)) ++ l))) =
      some ((m.natAbs, f), l) := parseDecNN_core ⟨m, f⟩ l hl
  by_cases hn : m < 0
  · have hshape : decChars ⟨m, f⟩ ++ l = '-' ::
        ((decDigs ⟨m, f⟩).take ((decDigs ⟨m, f⟩).length - (f + 1)) ++
          ('.' :: ((decDigs ⟨m, f⟩).drop ((decDigs ⟨m, f⟩).length - (f + 1)) ++ l))) := by
      rw [decChars, if_pos hn]
      simp [List.append_assoc]
    rw [hshape]
    simp only [parseDec, List.head?_cons, List.tail_cons, reduceIte, hcore, Option.map_some',
      Option.some.injEq, Prod.mk.injEq, Dec.mk.injEq]
    exact ⟨⟨by omega, trivial⟩, trivial⟩
  · obtain ⟨c, rest, hshape, hsign⟩ := decChars_shape ⟨m, f⟩
    have hcdig : isDig c = true := by
      rcases hsign with ⟨h1, _⟩ | ⟨_, h2⟩
      · exact absurd h1 hn
      · exact h2
    have hshape2 : decChars ⟨m, f⟩ ++ l = c :: (rest ++ l) := by rw [hshape]; rfl
    have hhead : ¬ ((decChars ⟨m, f⟩ ++ l).head? = some '-') := by
      rw [hshape2]
      simp only [List.head?_cons, Option.some.injEq]
      exact isDig_ne_dash c hcdig
    have hshape3 : decChars ⟨m, f⟩ ++ l =
        (decDigs ⟨m, f⟩).take ((decDigs ⟨m, f⟩).length - (f + 1)) ++
          ('.' :: ((decDigs ⟨m, f⟩).drop ((decDigs ⟨m, f⟩).length - (f + 1)) ++ l)) := by
      rw [decChars, if_neg hn]
      simp [List.append_assoc]
    rw [parseDec, if_neg hhead, hshape3, hcore]
    simp only [Option.map_some', Option.some.injEq, Prod.mk.injEq, Dec.mk.injEq]
    exact ⟨⟨by omega, trivial⟩, trivial⟩

theorem parseCField_round (c : Option Dec) (l : List Char) (hl : noDigHead l) :
    parseCField (cChars c ++ l) = some (c, l) := by
  cases c with
  | none =>
    have h1 : cChars none ++ l = ['n', 'u', 'l', 'l'] ++ l := rfl
    have hhead : (['n', 'u', 'l', 'l'] ++ l).head? = some 'n' := rfl
    rw [h1, parseCField, if_pos hhead, dropLit_append]
    rfl
  | some d =>
    obtain ⟨ch, rest, hshape, hsign⟩ := decChars_shape d
    have hch : ch ≠ 'n' := by
      rcases hsign with ⟨_, rfl⟩ | ⟨_, hdig⟩
      · decide
      · exact isDig_ne_n ch hdig
    have hshape2 : cChars (some d) ++ l = ch :: (rest ++ l) := by
      show decChars d ++ l = _
      rw [hshape]
      rfl
    have hhead : (cChars (some d) ++ l).head? ≠ some 'n' := by
      rw [hshape2]
      simpa using hch
    simp only [parseCField, if_neg hhead]
    show (parseDec (decChars d ++ l)).map _ = _
    rw [parseDec_round d l hl]
    rfl

theorem parseStrBody_round (s l : List Char) :
    parseStrBody (escape s ++ ('"' :: l)) = some (s, l) := by
  induction s with
  | nil =>
    show parseStrBody ('"' :: l) = _
    simp [parseStrBody]
  | cons ch t ih =>
    by_cases hc : ch = '"' ∨ ch = '\\'
    · have hshape : escape (ch :: t) ++ ('"' :: l) =
          '\\' :: (ch :: (escape t ++ ('"' :: l))) := by
        rw [escape, if_pos hc]
        rfl
      rw [hshape]
      simp only [parseStrBody, reduceIte, List.head?_cons, Option.some_bind, List.tail_cons,
        ih, Option.map_some']
      exact if_neg (by decide)
    · have hshape : escape (ch :: t) ++ ('"' :: l) = ch :: (escape t ++ ('"' :: l)) := by
        rw [escape, if_neg hc]
        rfl
      push_neg at hc
      rw [hshape]
      simp only [parseStrBody]
      rw [if_neg hc.1, if_neg hc.2, ih]
      rfl

theorem noDigHead_seg2 (x : List Char) : noDigHead (seg2 ++ x) := by
  show isDig ',' = false
  decide

theorem noDigHead_seg3 (x : List Char) : noDigHead (seg3 ++ x) := by
  show isDig ',' = false
  decide

theorem noDigHead_seg4 (x : List Char) : noDigHead (seg4 ++ x) := by
  show isDig ',' = false
  decide

theorem parseInt_seg2 (n : Int) (x : List Char) :
    parseInt (intChars n ++ (seg2 ++ x)) = some (n, seg2 ++ x) :=
  parseInt_round n _ (noDigHead_seg2 x)

theorem parseInt_seg3 (n : Int) (x : List Char) :
    parseInt (intChars n ++ (seg3 ++ x)) = some (n, seg3 ++ x) :=
  parseInt_round n _ (noDigHead_seg3 x)

theorem parseCField_seg4 (c : Option Dec) (x : List Char) :
    parseCField (cChars c ++ (seg4 ++ x)) = some (c, seg4 ++ x) :=
  parseCField_round c _ (noDigHead_seg4 x)

/-- Serialize-then-parse recovers the record exactly: the document store
loses nothing. -/
theorem parse_dump (r : Record) : parseRecord (dumpRecord r) = some r := by
  obtain ⟨a, b, c, form, al, be⟩ := r
  simp only [parseRecord, dumpRecord, List.append_assoc, dropLit_append, Option.some_bind,
    parseInt_seg2, parseInt_seg3, parseCField_seg4, parseStrBody_round, dropLit_refl,
    reduceIte]

/-! ## The program (`main` of `src/hashira.cpp`) -/

/-- Byte of a decoded root string being an ASCII decimal digit. -/
def isDigB (b : Nat) : Bool := 48 ≤ b && b ≤ 57

/-- Longest digit run at the front of a byte string, and the rest. -/
def splitDigsB : List Nat → List Nat × List Nat
  | [] => ([], [])
  | b :: t => if isDigB b then ((splitDigsB t).1.cons b, (splitDigsB t).2) else ([], b :: t)

/-- Numeric value of a byte digit run. -/
def valB (ds : List Nat) : Nat := ds.foldl (fun acc b => acc * 10 + (b - 48)) 0

/-- Modelled from the spec: `std::stod` (not part of the repository) on
the decoded root text, spec section 4.5 — parse the leading decimal
number (optional sign, digits, optional point and digits); no digits at
all is the fatal numeric-text-parse failure of spec section 7.
Exponent and hexadecimal forms, which nothing here produces, are
elided. -/
def stod (bs : List Nat) : Option ℚ :=
  let core := fun (t : List Nat) (neg : Bool) =>
    let p := splitDigsB t
    if p.2.head? = some 46 then
      let q := splitDigsB p.2.tail
      if p.1 = [] ∧ q.1 = [] then none
      else
        let v : ℚ := (valB p.1 : ℚ) + (valB q.1 : ℚ) / 10 ^ q.1.length
        some (if neg then -v else v)
    else if p.1 = [] then none
    else some (if neg then -(valB p.1 : ℚ) else (valB p.1 : ℚ))
  match bs with
  | 45 :: t => core t true
  | 43 :: t => core t false
  | _ => core bs false

/-- Shortest decimal form of the computed `double`, with at least one
fractional digit, as `nlohmann::json` prints a finite `double` (for
example `20.0`, `3.5`).  Every value reaching this point is a product
and sum of decimal fractions, so a bound of 400 fractional digits is
never hit. -/
def toDec (q : ℚ) : Option Dec :=
  ((List.range 400).find? (fun f => (q * 10 ^ (f + 1)).den == 1)).map
    (fun f => ⟨(q * 10 ^ (f + 1)).num, f⟩)

/-- The coefficient `a = 2` of `src/hashira.cpp:25`. -/
def a0 : Int := 2

/-- The coefficient `b = -7` of `src/hashira.cpp:26`. -/
def b0 : Int := -7

/-- Bytes of `alpha_plain = "2"` (`src/hashira.cpp:28`). -/
def alpha_plain : List Nat := [50]

/-- Bytes of `beta_plain = "5"` (`src/hashira.cpp:29`). -/
def beta_plain : List Nat := [53]

/-- `alpha_b64 = base64::to_base64(alpha_plain)` (`src/hashira.cpp:31`). -/
def alpha_b64 : List Char := to_base64 alpha_plain

/-- `beta_b64 = base64::to_base64(beta_plain)` (`src/hashira.cpp:32`). -/
def beta_b64 : List Char := to_base64 beta_plain

/-- The initial document `data` of `src/hashira.cpp:34-45`: coefficients,
null `c`, the fixed form string, and the encoded roots. -/
def data0 : Record :=
  ⟨a0, b0, none, "ax^2 + bx + c = 0".toList, alpha_b64, beta_b64⟩

/-- The one file the program touches (`polynomial.json`), plus whether
the path is writable.  `file = none` means no file exists at the path. -/
structure World where
  writable : Bool
  file : Option (List Char)
deriving DecidableEq

/-- A write through `std::ofstream` with the default exception mask: on a
writable path it replaces the content; on an unwritable path the open
fails, `failbit` is set, nothing is thrown, every insertion is a no-op,
and the program continues (the stream state is never checked in the
source). -/
def writeFile (w : World) (t : List Char) : World :=
  match w.writable with
  | true => ⟨true, some t⟩
  | false => w

/-- The fatal outcomes: an uncaught exception from `json::parse` or a
field extraction, from `base64::from_base64`, from `std::stod`, or from
number formatting, each terminating the process. -/
inductive RErr
  | parseFail
  | decodeFail
  | stodFail
  | numFail
deriving DecidableEq

/-- The diagnostic values `main` prints at `src/hashira.cpp:87-91`:
`alpha + beta`, the expected `-b/a`, `alpha * beta`, and the computed
`c`. -/
structure Printed where
  sumRoots : ℚ
  expectedSum : ℚ
  prodRoots : ℚ
  cOut : ℚ
deriving DecidableEq

/-- How the process ends: normal return or an uncaught exception. -/
inductive Outcome
  | ok (p : Printed)
  | fatal (e : RErr)
deriving DecidableEq

/-- The process exit status: 0 from `return 0`, nonzero (modelled as 1)
when an uncaught exception terminates the process. -/
def exitCode : Outcome → Nat
  | .ok _ => 0
  | .fatal _ => 1

/-- Steps 2-5 of `main` after the first write (`src/hashira.cpp:55-99`):
read back and parse, extract the fields, decode the roots, parse them as
numbers, compute `c = a * (alpha * beta)`, store it in the loaded record
and write the document again. -/
def afterWrite1 (w1 : World) : World × Outcome :=
  match w1.file.bind parseRecord with
  | none => (w1, .fatal .parseFail)
  | some loaded =>
    match from_base64 loaded.alpha, from_base64 loaded.beta with
    | some ab, some bb =>
      match stod ab, stod bb with
      | some al, some be =>
        match toDec ((loaded.a : ℚ) * (al * be)) with
        | some d =>
          (writeFile w1 (dumpRecord { loaded with c := some d }),
           .ok ⟨al + be, -((loaded.b : ℚ)) / (loaded.a : ℚ), al * be,
             (loaded.a : ℚ) * (al * be)⟩)
        | none => (w1, .fatal .numFail)
      | _, _ => (w1, .fatal .stodFail)
    | _, _ => (w1, .fatal .decodeFail)

/-- One whole run of `main`: build `data0`, write it, then the
read-decode-compute-rewrite tail.  Returns the final filesystem state
and the process outcome. -/
def run (w : World) : World × Outcome :=
  afterWrite1 (writeFile w (dumpRecord data0))

/-- The computed `c` of a finished run, when the run returned normally. -/
def cOf (r : World × Outcome) : Option ℚ :=
  match r.2 with
  | .ok p => some p.cOut
  | .fatal _ => none

/-- On a writable path the initial file content is irrelevant: the first
write replaces it unconditionally (the program never reads before the
first write). -/
theorem run_writable_irrelevant (f : Option (List Char)) :
    run ⟨true, f⟩ = run ⟨true, none⟩ := rfl

/-- The document produced by the second write: the parsed-back initial
record with only `c` replaced by the serialized `20.0`. -/
def rec20 : Record := { data0 with c := some ⟨200, 0⟩ }

theorem stod_two : stod [50] = some 2 := by
  have h : stod [50] = some ((2 : ℕ) : ℚ) := rfl
  rw [h]
  norm_num

theorem stod_five : stod [53] = some 5 := by
  have h : stod [53] = some ((5 : ℕ) : ℚ) := rfl
  rw [h]
  norm_num

theorem toDec_int_mul_ten (m : ℤ) (q : ℚ) (hq : q * 10 ^ (0 + 1) = (m : ℚ)) :
    toDec q = some ⟨m, 0⟩ := by
  have hrange : List.range 400 = 0 :: List.map Nat.succ (List.range 399) :=
    List.range_succ_eq_map 399
  have hp : ((q * 10 ^ (0 + 1)).den == 1) = true := by
    simp only [hq, Rat.den_intCast]
    rfl
  rw [toDec, hrange,
    @List.find?_cons_of_pos ℕ (fun f => (q * 10 ^ (f + 1)).den == 1) 0
      (List.map Nat.succ (List.range 399)) hp,
    Option.map_some']
  simp only [Option.some.injEq, Dec.mk.injEq, and_true]
  rw [hq, Rat.num_intCast]

/-- The read-decode-compute-rewrite tail, on a file holding the dump of a
record whose roots are the base64 texts of `"2"` and `"5"`: it decodes
`2` and `5`, prints their sum `7`, the expected sum `-b/a`, the product
`10`, computes `c = a * (2 * 5)` and writes the record back with only
`c` changed. -/
theorem afterWrite1_good (w1 : World) (r : Record) (d : Dec)
    (hf : w1.file = some (dumpRecord r))
    (hal : r.alpha = alpha_b64) (hbe : r.beta = beta_b64)
    (hd : toDec ((r.a : ℚ) * (2 * 5)) = some d) :
    afterWrite1 w1 = (writeFile w1 (dumpRecord { r with c := some d }),
      .ok ⟨7, -((r.b : ℚ)) / (r.a : ℚ), 10, (r.a : ℚ) * (2 * 5)⟩) := by
  have hdec_a : from_base64 alpha_b64 = some [50] := by decide
  have hdec_b : from_base64 beta_b64 = some [53] := by decide
  simp only [afterWrite1, hf, Option.some_bind, parse_dump, hal, hbe, hdec_a, hdec_b,
    stod_two, stod_five, hd]
  simp only [Prod.mk.injEq, Outcome.ok.injEq, Printed.mk.injEq]
  norm_num

theorem afterWrite1_fatal (w1 : World) (h : w1.file.bind parseRecord = none) :
    afterWrite1 w1 = (w1, .fatal .parseFail) := by
  simp only [afterWrite1, h]

theorem run_writable_eval (f : Option (List Char)) :
    run ⟨true, f⟩ = (⟨true, some (dumpRecord rec20)⟩, .ok ⟨7, 7 / 2, 10, 20⟩) := by
  have h1 : run ⟨true, f⟩ = afterWrite1 ⟨true, some (dumpRecord data0)⟩ := rfl
  have hd : toDec ((data0.a : ℚ) * (2 * 5)) = some ⟨200, 0⟩ :=
    toDec_int_mul_ten 200 _ (by norm_num [data0, a0])
  rw [h1, afterWrite1_good ⟨true, some (dumpRecord data0)⟩ data0 ⟨200, 0⟩ rfl rfl rfl hd]
  have hw : writeFile ⟨true, some (dumpRecord data0)⟩
      (dumpRecord { data0 with c := some ⟨200, 0⟩ }) =
      ⟨true, some (dumpRecord rec20)⟩ := rfl
  rw [hw]
  simp only [Prod.mk.injEq, Outcome.ok.injEq, Printed.mk.injEq]
  norm_num [data0, a0, b0]

theorem writeFile_unwritable (w : World) (hw : w.writable = false) (t : List Char) :
    writeFile w t = w := by
  obtain ⟨wb, wf⟩ := w
  cases wb
  · rfl
  · exact absurd hw (by simp)

/-- On an unwritable path neither write changes the filesystem: the run
ends with the file exactly as it started, whatever else happens. -/
theorem run_unwritable_fst (w : World) (hw : w.writable = false) : (run w).1 = w := by
  have h1 : run w = afterWrite1 w := by rw [run, writeFile_unwritable w hw]
  rw [h1, afterWrite1]
  split
  · rfl
  · split
    · split
      · split
        · exact writeFile_unwritable w hw _
        · rfl
      · rfl
    · rfl

/-- A run on an unwritable path whose pre-existing file holds the dump of
a record with the standard encoded roots: the writes are silently lost,
the pre-existing record is what gets loaded, and the run returns
normally. -/
theorem run_unwritable_good (r : Record) (d : Dec)
    (hal : r.alpha = alpha_b64) (hbe : r.beta = beta_b64)
    (hd : toDec ((r.a : ℚ) * (2 * 5)) = some d) :
    run ⟨false, some (dumpRecord r)⟩ = (⟨false, some (dumpRecord r)⟩,
      .ok ⟨7, -((r.b : ℚ)) / (r.a : ℚ), 10, (r.a : ℚ) * (2 * 5)⟩) := by
  have h1 : run ⟨false, some (dumpRecord r)⟩ =
      afterWrite1 ⟨false, some (dumpRecord r)⟩ := rfl
  rw [h1, afterWrite1_good _ r d rfl hal hbe hd]
  rfl

/-- A missing or unparseable file at read-back time is the uncaught
`json::parse` exception. -/
theorem run_fatal_of_bad_read (w : World)
    (h : (writeFile w (dumpRecord data0)).file.bind parseRecord = none) :
    (run w).2 = .fatal .parseFail := by
  rw [run, afterWrite1_fatal _ h]

/-- The variant pre-existing document used to separate two successful
runs: same roots, same `b`, but `a = 3`. -/
def alt3 : Record := { data0 with a := 3 }

/-- Does the text start with the pattern? -/
def startsWith : List Char → List Char → Bool
  | [], _ => true
  | _ :: _, [] => false
  | a :: p, b :: t => a == b && startsWith p t

/-- Does the pattern occur contiguously anywhere in the text? -/
def hasSeg (p : List Char) : List Char → Bool
  | [] => p.isEmpty
  | c :: t => startsWith p (c :: t) || hasSeg p t

/-- The exact text of the first written document (2-space indentation,
alphabetical key order, `null` for `c`, trailing newline). -/
def expectedText1 : List Char :=
  "\x7b\n  \"polynomial\": \x7b\n    \"a\": 2,\n    \"b\": -7,\n    \"c\": null,\n    \"form\": \"ax^2 + bx + c = 0\"\n  \x7d,\n  \"roots_base64\": \x7b\n    \"alpha\": \"Mg==\",\n    \"beta\": \"NQ==\"\n  \x7d\n\x7d\n".toList

/-! ## The claims -/

/-- C1: after a full run on a writable path with the built-in inputs
(`a = 2`, roots `"2"` and `"5"`), the persisted document's
`polynomial.c` field holds the serialized number `20.0` — whose value is
`a * alpha * beta = 2 * 2 * 5 = 20` exactly — and is numeric, not
null; the program also computed and printed that same value. -/
theorem c1_persisted_c (w : World) (hw : w.writable = true) :
    (run w).1.file = some (dumpRecord rec20) ∧
    parseRecord (dumpRecord rec20) = some rec20 ∧
    rec20.c = some ⟨200, 0⟩ ∧
    decVal ⟨200, 0⟩ = (2 : ℚ) * (2 * 5) ∧
    rec20.c ≠ none ∧
    cOf (run w) = some ((2 : ℚ) * (2 * 5)) := by
  obtain ⟨wb, wf⟩ := w
  cases wb
  · exact absurd hw (by simp)
  · rw [run_writable_eval wf]
    refine ⟨rfl, parse_dump rec20, rfl, by norm_num [decVal], by simp [rec20], ?_⟩
    show some (20 : ℚ) = _
    norm_num

theorem c1_witness :
    (run ⟨true, none⟩).1.file = some (dumpRecord rec20) ∧
    parseRecord (dumpRecord rec20) = some rec20 ∧
    rec20.c = some ⟨200, 0⟩ ∧
    decVal ⟨200, 0⟩ = (2 : ℚ) * (2 * 5) ∧
    rec20.c ≠ none ∧
    cOf (run ⟨true, none⟩) = some ((2 : ℚ) * (2 * 5)) :=
  c1_persisted_c ⟨true, none⟩ rfl

/-- C2: decoding the encoding returns the original byte string, for
every byte string, empty and non-ASCII included. -/
theorem c2_roundtrip (s : List Nat) (h : ∀ b ∈ s, b < 256) :
    from_base64 (to_base64 s) = some s :=
  b64_roundtrip s h

theorem c2_witness :
    from_base64 (to_base64 []) = some [] ∧
    from_base64 (to_base64 [77, 255, 0, 10]) = some [77, 255, 0, 10] :=
  ⟨c2_roundtrip [] (by decide), c2_roundtrip [77, 255, 0, 10] (by decide)⟩

/-- C3: with the built-in inputs the program prints
`alpha + beta = 7` and the expected `-b/a = 7/2 = 3.5`; the two are not
equal, nothing asserts their equality, and the run still returns
normally with exit status 0. -/
theorem c3_sum_printed (w : World) (hw : w.writable = true) :
    (run w).2 = .ok ⟨7, 7 / 2, 10, 20⟩ ∧
    (7 : ℚ) ≠ 7 / 2 ∧
    exitCode (run w).2 = 0 := by
  obtain ⟨wb, wf⟩ := w
  cases wb
  · exact absurd hw (by simp)
  · rw [run_writable_eval wf]
    exact ⟨rfl, by norm_num, rfl⟩

theorem c3_witness :
    (run ⟨true, none⟩).2 = .ok ⟨7, 7 / 2, 10, 20⟩ ∧
    (7 : ℚ) ≠ 7 / 2 ∧
    exitCode (run ⟨true, none⟩).2 = 0 :=
  c3_sum_printed ⟨true, none⟩ rfl

/-- C4 counterexample: an unwritable path under which the run still exits
with status 0 — a readable pre-existing document (here the output of an
earlier successful run) is parsed and the run returns normally, so the
write failure is not propagated as fatal. -/
theorem c4_counterexample :
    (⟨false, some (dumpRecord rec20)⟩ : World).writable = false ∧
    exitCode (run ⟨false, some (dumpRecord rec20)⟩).2 = 0 := by
  have hd : toDec ((rec20.a : ℚ) * (2 * 5)) = some ⟨200, 0⟩ :=
    toDec_int_mul_ten 200 _ (by norm_num [rec20, data0, a0])
  refine ⟨rfl, ?_⟩
  rw [run_unwritable_good rec20 ⟨200, 0⟩ rfl rfl hd]
  rfl

/-- C4 amended: on an unwritable path the writes fail silently
(`std::ofstream` with the default exception mask raises nothing and the
stream state is never checked), leaving the file unchanged; the run
aborts with a non-zero status only through the subsequent read-back,
namely when no parseable document pre-exists at the path. -/
theorem c4_amended_thm (w : World) (hw : w.writable = false) :
    (run w).1 = w ∧
    (w.file.bind parseRecord = none → exitCode (run w).2 = 1) := by
  refine ⟨run_unwritable_fst w hw, fun h => ?_⟩
  have h2 : (writeFile w (dumpRecord data0)).file.bind parseRecord = none := by
    rw [writeFile_unwritable w hw]
    exact h
  rw [run_fatal_of_bad_read w h2]
  rfl

theorem c4_witness :
    (run ⟨false, none⟩).1 = (⟨false, none⟩ : World) ∧
    exitCode (run ⟨false, none⟩).2 = 1 :=
  ⟨(c4_amended_thm ⟨false, none⟩ rfl).1, (c4_amended_thm ⟨false, none⟩ rfl).2 rfl⟩

/-- C5: the first written document carries `a = 2`, `b = -7`, the fixed
form string, the base64 texts of `"2"` and `"5"` under `roots_base64`,
and `c` serialized as `null` — not `0` and not an empty string — in the
2-space-indented text `expectedText1`, and parses back to exactly the
built record. -/
theorem c5_first_document :
    dumpRecord data0 = expectedText1 ∧
    parseRecord (dumpRecord data0) = some data0 ∧
    data0.a = 2 ∧ data0.b = -7 ∧ data0.c = none ∧
    data0.form = String.toList "ax^2 + bx + c = 0" ∧
    data0.alpha = to_base64 [50] ∧ data0.beta = to_base64 [53] ∧
    hasSeg (String.toList "\"c\": null") expectedText1 = true ∧
    hasSeg (String.toList "\"c\": 0") expectedText1 = false ∧
    hasSeg (String.toList "\"c\": \"\"") expectedText1 = false :=
  ⟨by decide, parse_dump data0, rfl, rfl, rfl, rfl, rfl, rfl, by decide, by decide,
    by decide⟩

/-- C6: a missing or unparseable file at read-back time terminates the
run through the uncaught parse exception with a non-zero status, and a
run in which every step returned normally exits with status 0. -/
theorem c6_read_failure (w : World) :
    ((writeFile w (dumpRecord data0)).file.bind parseRecord = none →
      exitCode (run w).2 = 1) ∧
    (∀ p : Printed, (run w).2 = .ok p → exitCode (run w).2 = 0) := by
  constructor
  · intro h
    rw [run_fatal_of_bad_read w h]
    rfl
  · intro p hp
    rw [hp]
    rfl

theorem c6_witness :
    exitCode (run ⟨false, some ['x']⟩).2 = 1 :=
  (c6_read_failure ⟨false, some ['x']⟩).1 rfl

/-- C7: the update step changes only `c`: the final file is the dump of
the first document's parsed record with `c` alone replaced (null before,
numeric after), written to the same single path. -/
theorem c7_frame (w : World) (hw : w.writable = true) :
    parseRecord (dumpRecord data0) = some data0 ∧
    (run w).1.file = some (dumpRecord { data0 with c := some ⟨200, 0⟩ }) ∧
    data0.c = none ∧
    ({ data0 with c := some ⟨200, 0⟩ } : Record).a = data0.a ∧
    ({ data0 with c := some ⟨200, 0⟩ } : Record).b = data0.b ∧
    ({ data0 with c := some ⟨200, 0⟩ } : Record).form = data0.form ∧
    ({ data0 with c := some ⟨200, 0⟩ } : Record).alpha = data0.alpha ∧
    ({ data0 with c := some ⟨200, 0⟩ } : Record).beta = data0.beta ∧
    ({ data0 with c := some ⟨200, 0⟩ } : Record).c ≠ data0.c := by
  obtain ⟨wb, wf⟩ := w
  cases wb
  · exact absurd hw (by simp)
  · rw [run_writable_eval wf]
    refine ⟨parse_dump data0, rfl, rfl, rfl, rfl, rfl, rfl, rfl, by simp [data0]⟩

theorem c7_witness :
    parseRecord (dumpRecord data0) = some data0 ∧
    (run ⟨true, none⟩).1.file = some (dumpRecord { data0 with c := some ⟨200, 0⟩ }) ∧
    data0.c = none ∧
    ({ data0 with c := some ⟨200, 0⟩ } : Record).a = data0.a ∧
    ({ data0 with c := some ⟨200, 0⟩ } : Record).b = data0.b ∧
    ({ data0 with c := some ⟨200, 0⟩ } : Record).form = data0.form ∧
    ({ data0 with c := some ⟨200, 0⟩ } : Record).alpha = data0.alpha ∧
    ({ data0 with c := some ⟨200, 0⟩ } : Record).beta = data0.beta ∧
    ({ data0 with c := some ⟨200, 0⟩ } : Record).c ≠ data0.c :=
  c7_frame ⟨true, none⟩ rfl

/-- C8: in both persisted documents the roots appear only as the quoted
base64 strings `"Mg=="` and `"NQ=="` — text fields that decode back to
the root texts — and the root fields are identical across the two
writes. -/
theorem c8_roots_encoded :
    parseRecord (dumpRecord data0) = some data0 ∧
    parseRecord (dumpRecord rec20) = some rec20 ∧
    data0.alpha = to_base64 [50] ∧ data0.beta = to_base64 [53] ∧
    rec20.alpha = data0.alpha ∧ rec20.beta = data0.beta ∧
    from_base64 data0.alpha = some [50] ∧ from_base64 data0.beta = some [53] ∧
    hasSeg (String.toList "\"alpha\": \"Mg==\"") (dumpRecord data0) = true ∧
    hasSeg (String.toList "\"alpha\": \"Mg==\"") (dumpRecord rec20) = true ∧
    hasSeg (String.toList "\"beta\": \"NQ==\"") (dumpRecord data0) = true ∧
    hasSeg (String.toList "\"beta\": \"NQ==\"") (dumpRecord rec20) = true :=
  ⟨parse_dump data0, parse_dump rec20, rfl, rfl, rfl, rfl, by decide, by decide,
    by decide, by decide, by decide, by decide⟩

/-- C9: serializing any record, parsing the text back, and re-serializing
describes the same values: parsing a dump recovers the record exactly,
so the re-serialization is the same document. -/
theorem c9_reserialize (r : Record) : parseRecord (dumpRecord r) = some r :=
  parse_dump r

/-- C10 counterexample: two runs that both exit 0 yet end with different
file contents and different computed `c`: a normal writable run, and a
run against a read-only pre-existing document with `a = 3`, which the
program reads back after its first write silently failed. -/
theorem c10_counterexample :
    exitCode (run ⟨true, none⟩).2 = 0 ∧
    exitCode (run ⟨false, some (dumpRecord alt3)⟩).2 = 0 ∧
    (run ⟨true, none⟩).1.file ≠ (run ⟨false, some (dumpRecord alt3)⟩).1.file ∧
    cOf (run ⟨true, none⟩) ≠ cOf (run ⟨false, some (dumpRecord alt3)⟩) := by
  have hd3 : toDec ((alt3.a : ℚ) * (2 * 5)) = some ⟨300, 0⟩ :=
    toDec_int_mul_ten 300 _ (by norm_num [alt3, data0])
  rw [run_writable_eval none, run_unwritable_good alt3 ⟨300, 0⟩ rfl rfl hd3]
  refine ⟨rfl, rfl, by decide, ?_⟩
  show some (20 : ℚ) ≠ some ((alt3.a : ℚ) * (2 * 5))
  norm_num [alt3, data0]

/-- C10 amended: restricted to runs in which the first write actually
persists (a writable path), the program is deterministic: any two such
runs end with identical file contents and the same computed `c = 20`,
whatever the path held beforehand. -/
theorem c10_amended_thm (w1 w2 : World) (h1 : w1.writable = true)
    (h2 : w2.writable = true) :
    (run w1).1.file = (run w2).1.file ∧
    cOf (run w1) = cOf (run w2) ∧
    cOf (run w1) = some 20 ∧
    exitCode (run w1).2 = 0 := by
  obtain ⟨b1, f1⟩ := w1
  obtain ⟨b2, f2⟩ := w2
  cases b1
  · exact absurd h1 (by simp)
  · cases b2
    · exact absurd h2 (by simp)
    · rw [run_writable_eval f1, run_writable_eval f2]
      exact ⟨rfl, rfl, rfl, rfl⟩

theorem c10_witness :
    (run ⟨true, none⟩).1.file = (run ⟨true, some ['x']⟩).1.file ∧
    cOf (run ⟨true, none⟩) = cOf (run ⟨true, some ['x']⟩) ∧
    cOf (run ⟨true, none⟩) = some 20 ∧
    exitCode (run ⟨true, none⟩).2 = 0 :=
  c10_amended_thm ⟨true, none⟩ ⟨true, some ['x']⟩ rfl rfl

end Hashira
